import Mathlib

/-!
Verification development for the pve-cslb workload balancer.

The Python sources are embedded shallowly:
* numeric telemetry (Python `float`/`int`) is modelled by `ℚ` and `ℤ`,
  with arithmetic taken exactly;
* Python's banker's rounding `round` is `pythonRound`;
* code that can raise an exception is modelled with `Option`/`Except`
  (`none`/`error` = the exception propagates);
* Python `dict`s (which preserve insertion order) are association lists.

`statistics.stdev` returns the square root of the sample variance, which is
irrational in general; all the source's comparisons against the standard
deviation are strict, so they are embedded by the decidable `gtSqrt`
predicate (`a > √v  ↔  0 < a ∧ v < a²` for `v ≥ 0`), and the bridging lemma
`gtSqrt_iff_sqrt_lt` relates it to `Real.sqrt`.
-/

namespace PveCslb

/-- Python 3 `round` to an integer: round-half-to-even (banker's rounding). -/
def pythonRound (q : ℚ) : ℤ :=
  let f := ⌊q⌋
  let r := q - f
  if r < 1/2 then f
  else if 1/2 < r then f + 1
  else if f % 2 = 0 then f else f + 1

/-- Model of `config.py`'s `Config`, keeping only the fields the balancing
logic reads (the Proxmox connection and logging fields are plumbing).
`percent_cpu`/`percent_mem` correspond to the private attributes
`_percent_cpu`/`_percent_mem`. Defaults in the source: `tolerance = 0.2`,
`_percent_cpu = 0.4`, `_percent_mem = 0.6`, `max_migrations = 5`. -/
structure Config where
  exclude_nodes : List String
  tolerance : ℚ
  percent_cpu : ℚ
  percent_mem : ℚ
  max_migrations : ℕ
  deriving DecidableEq, Repr

/-- The `sum > 1` block of `Config.balance_resource_weights` (config.py
lines 127-136): three sequential `if` statements, each reading the values
left by the previous one. -/
def brwOver (pc pm : ℚ) : ℚ × ℚ :=
  let s1 := if pc > pm then (min pc 1, 1 - min pc 1) else (pc, pm)
  let s2 := if s1.1 < s1.2 then (1 - min s1.2 1, min s1.2 1) else s1
  if s2.1 = s2.2 then (1/2, 1/2) else s2

/-- The `sum < 1` block of `Config.balance_resource_weights` (config.py
lines 137-144): three sequential `if` statements. -/
def brwUnder (pc pm : ℚ) : ℚ × ℚ :=
  let s1 := if pc > pm then (1 - pm, pm) else (pc, pm)
  let s2 := if s1.2 > s1.1 then (s1.1, 1 - s1.1) else s1
  if s2.1 = s2.2 then (1/2, 1/2) else s2

/-- `Config.balance_resource_weights` (config.py lines 125-144): the
`sum > 1` block runs first, then the `sum < 1` test is re-evaluated on the
values the first block left behind. Returns the final
`(_percent_cpu, _percent_mem)` pair. -/
def balance_resource_weights (pc pm : ℚ) : ℚ × ℚ :=
  let s := if pc + pm > 1 then brwOver pc pm else (pc, pm)
  if s.1 + s.2 < 1 then brwUnder s.1 s.2 else s

/-- The `percent_cpu` property setter (config.py lines 90-94): store the new
value in `_percent_cpu`, then run `balance_resource_weights`. -/
def set_percent_cpu (c : Config) (v : ℚ) : Config :=
  let p := balance_resource_weights v c.percent_mem
  ⟨c.exclude_nodes, c.tolerance, p.1, p.2, c.max_migrations⟩

/-- The `percent_mem` property setter (config.py lines 101-105): store the new
value in `_percent_mem`, then run `balance_resource_weights`. -/
def set_percent_mem (c : Config) (v : ℚ) : Config :=
  let p := balance_resource_weights c.percent_cpu v
  ⟨c.exclude_nodes, c.tolerance, p.1, p.2, c.max_migrations⟩

/-- The normalization rule in the spec's words, with the `sum < 1` case
stated as the code actually behaves (the larger value is raised to
`1 - smaller`): if the sum exceeds 1, the larger value is clamped to at
most 1 and the other is set to `1 - larger`; if the sum is below 1, the
larger value is increased to `1 - smaller`; if the two are equal, both are
reset to `0.5`. -/
def normalize_rule (pc pm : ℚ) : ℚ × ℚ :=
  if pc + pm > 1 then
    if pc > pm then (min pc 1, 1 - min pc 1)
    else if pm > pc then (1 - min pm 1, min pm 1)
    else (1/2, 1/2)
  else if pc + pm < 1 then
    if pc > pm then (1 - pm, pm)
    else if pm > pc then (pc, 1 - pc)
    else (1/2, 1/2)
  else (pc, pm)

/-- Raw node telemetry consumed by `WorkloadBalancer.get_node_state`: clock
speed, core count, the 1/5/15-minute load-average triplet, and the memory
counters (bytes) including KSM-shared memory. -/
structure NodeStatus where
  cpu_mhz : ℚ
  cpu_cores : ℚ
  loadavg1 : ℚ
  loadavg5 : ℚ
  loadavg15 : ℚ
  mem_total : ℤ
  mem_used : ℤ
  mem_free : ℤ
  mem_ksm : ℤ
  deriving DecidableEq, Repr

/-- `cpu_free = cpu_total - cpu_used` in `get_node_state`
(workload_balancer.py lines 72-74), with
`cpu_load = mean(loadavg)` over the three load averages. -/
def node_cpu_free (ns : NodeStatus) : ℚ :=
  ns.cpu_mhz * ns.cpu_cores - ns.cpu_mhz * ((ns.loadavg1 + ns.loadavg5 + ns.loadavg15) / 3)

/-- `mem_free_no_ksm = mem_total - (mem_used + mem_ksm)`
(workload_balancer.py line 88). -/
def memFreeNoKsm (ns : NodeStatus) : ℤ :=
  ns.mem_total - (ns.mem_used + ns.mem_ksm)

/-- `w_cpu = percent_cpu * (cpu_total / cpu_free) * 100`
(workload_balancer.py line 79). -/
def node_w_cpu (conf : Config) (ns : NodeStatus) : ℚ :=
  conf.percent_cpu * ((ns.cpu_mhz * ns.cpu_cores) / node_cpu_free ns) * 100

/-- `w_mem = percent_mem * (mem_total / mem_free_no_ksm) * 100`
(workload_balancer.py line 93). -/
def node_w_mem (conf : Config) (ns : NodeStatus) : ℚ :=
  conf.percent_mem * ((ns.mem_total : ℚ) / (memFreeNoKsm ns : ℚ)) * 100

/-- `WorkloadBalancer.get_node_state` (workload_balancer.py lines 68-100):
returns `(weight, mem_free, cpu_free)`. The divisions by `cpu_free` and by
`mem_free_no_ksm` are unguarded in the source; a zero denominator raises
`ZeroDivisionError` in Python, modelled by `none`. -/
def get_node_state (conf : Config) (ns : NodeStatus) : Option (ℤ × ℤ × ℚ) :=
  if node_cpu_free ns = 0 ∨ memFreeNoKsm ns = 0 then none
  else some (pythonRound (node_w_cpu conf ns + node_w_mem conf ns), ns.mem_free, node_cpu_free ns)

/-- Raw telemetry of one running workload, as read by
`WorkloadBalancer.get_workload_state`: core count `cpus`, CPU load fraction
`cpu`, memory maximum `maxmem` and memory used `mem`, plus name and kind. -/
structure WorkloadRaw where
  name : String
  kind : String
  cpus : ℚ
  cpu : ℚ
  maxmem : ℚ
  mem : ℚ
  deriving DecidableEq, Repr

/-- `WorkloadBalancer.get_workload_state` (workload_balancer.py lines
149-176): returns `(weight, mem_used, cpu_used)`. `cpu_used` is clamped to a
minimum of `0.001` before the division `cpu_used / cpu_max`; the divisions
by `cpu_max` and `maxmem` are unguarded, so a zero denominator raises
`ZeroDivisionError` in Python, modelled by `none`. -/
def get_workload_state (conf : Config) (node_cpu_mhz : ℚ) (w : WorkloadRaw) :
    Option (ℤ × ℚ × ℚ) :=
  let cpu_used0 := node_cpu_mhz * w.cpu
  let cpu_max := node_cpu_mhz * w.cpus
  let cpu_used := if cpu_used0 ≤ 1/1000 then 1/1000 else cpu_used0
  if cpu_max = 0 ∨ w.maxmem = 0 then none
  else
    some (pythonRound (conf.percent_cpu * (cpu_used / cpu_max) * 100
            + conf.percent_mem * (w.mem / w.maxmem) * 100),
          w.mem, cpu_used)

/-- One workload entry of the snapshot built in `get_migration_candidates`
(workload_balancer.py lines 196-207): name and kind from the workload dict,
plus the values returned by `get_workload_state`. The source binds the
third return value of `get_workload_state` (its `cpu_used`) to the key
`"cpu_max"`, so the field is called `cpu_max` here as well although it
holds the workload's cpu-used figure. -/
structure Workload where
  name : String
  kind : String
  weight : ℤ
  mem_used : ℚ
  cpu_max : ℚ
  deriving DecidableEq, Repr

/-- One node entry of the snapshot built in `get_migration_candidates`
(workload_balancer.py lines 190-214): the values from `get_node_state` plus
the workload dict (`workload_count` is the length of `workloads`).
The workload dict is an association list from vmid to `Workload`. -/
structure NodeState where
  weight : ℤ
  mem_free : ℤ
  cpu_free : ℚ
  workloads : List (String × Workload)
  deriving DecidableEq, Repr

/-- `MigrationSpec(source, destination, name, vmid, kind)`; the class itself
lives in `migration_spec.py` (not in the sources at hand), but its
constructor-argument order and field names are fixed by its uses at
workload_balancer.py lines 284-291 and 301-332 and by the spec's data
model: source node, destination node, workload name, workload id, kind. -/
structure MigrationSpec where
  source : String
  destination : String
  name : String
  vmid : String
  kind : String
  deriving DecidableEq, Repr

/-- `sorted(items, key=weight-like-key, reverse=True)[0]` for a nonempty
list: Python's sort is stable, so the head of the descending sort is the
first-seen element with the maximal key. The fold keeps the current best
and replaces it only on a strictly larger key. -/
def pickMaxBy (key : α → ℤ) : List α → Option α
  | [] => none
  | x :: xs => some (xs.foldl (fun b y => if key b < key y then y else b) x)

/-- Source selection (workload_balancer.py lines 256-258):
`sorted(candidates["source"].items(), key=weight, reverse=True)[0]`,
i.e. the first-seen node with the highest weight. -/
def selectSource (l : List (String × NodeState)) : Option (String × NodeState) :=
  pickMaxBy (fun p => p.2.weight) l

/-- Workload selection (workload_balancer.py lines 261-265):
`sorted(workloads.items(), key=weight, reverse=False)[0]`, i.e. the
first-seen workload with the lowest weight; the head of a stable ascending
sort is the first-seen maximum of the negated key. -/
def selectWorkload (l : List (String × Workload)) : Option (String × Workload) :=
  pickMaxBy (fun p => -p.2.weight) l

/-- `del pool[k]` on an insertion-ordered dict modelled as an association
list: drop the (unique) entry whose key is `k`. -/
def removeKey (k : String) : List (String × NodeState) → List (String × NodeState)
  | [] => []
  | x :: xs => if x.1 = k then xs else x :: removeKey k xs

/-- `sorted(dests.items(), key=weight, reverse=False)`: a stable ascending
sort by node weight (Mathlib's insertion sort is stable). -/
def sortAsc (l : List (String × NodeState)) : List (String × NodeState) :=
  List.insertionSort (fun a b => a.2.weight ≤ b.2.weight) l

/-- The destination capacity test (workload_balancer.py lines 275-278):
the candidate's recorded `mem_free` must strictly exceed the workload's
`mem_used`, and its recorded `cpu_free` must strictly exceed the
workload's cpu-used figure (stored under the key `cpu_max`). The source
reads these values from `node_states[destination_name]`, which holds the
same state object as the destination pool entry. -/
def destQualifies (w : Workload) (d : String × NodeState) : Bool :=
  decide (w.mem_used < (d.2.mem_free : ℚ) ∧ w.cpu_max < d.2.cpu_free)

/-- The destination scan (workload_balancer.py lines 270-293): walk the
remaining destinations in ascending weight order and return the name of the
first one that passes the capacity test (`none` when no destination
qualifies). -/
def findDest (dests : List (String × NodeState)) (w : Workload) : Option String :=
  ((sortAsc dests).find? (destQualifies w)).map (fun d => d.1)

/-- The planner's `while` loop (workload_balancer.py lines 250-299).
`fuel` is an upper bound on the number of iterations; each iteration
removes exactly one source, so `sources.length` suffices and the `fuel = 0`
case is only reached with an empty source pool (where the loop guard fails
and the current proposals are returned, exactly as at `fuel = 0`).
One iteration: pick the highest-weight source, pick its lowest-weight
workload (Python raises `IndexError`, modelled `none`, if that source has
no workloads), delete the source from the pool, then scan the destinations;
on a hit, delete the destination and append a `MigrationSpec`. -/
def planLoop (maxMig : ℕ) : ℕ → List (String × NodeState) → List (String × NodeState) →
    List MigrationSpec → Option (List MigrationSpec)
  | 0, _, _, proposals => some proposals
  | fuel + 1, sources, dests, proposals =>
    if 0 < sources.length ∧ 0 < dests.length ∧ proposals.length ≤ maxMig then
      match selectSource sources with
      | none => some proposals
      | some (sname, sstate) =>
        match selectWorkload sstate.workloads with
        | none => none
        | some (vmid, w) =>
          match findDest dests w with
          | none => planLoop maxMig fuel (removeKey sname sources) dests proposals
          | some dname =>
            planLoop maxMig fuel (removeKey sname sources) (removeKey dname dests)
              (proposals ++ [⟨sname, dname, w.name, vmid, w.kind⟩])
    else some proposals

/-- The node filter of the snapshot loop (workload_balancer.py lines
181-185): nodes named in `exclude_nodes` are skipped. -/
def filteredNodes (conf : Config) (allNodes : List (String × NodeState)) :
    List (String × NodeState) :=
  allNodes.filter (fun p => !(conf.exclude_nodes.contains p.1))

/-- `node_weights = [n["weight"] for n in node_states.values()]`
(workload_balancer.py line 216). -/
def nodeWeights (nsl : List (String × NodeState)) : List ℤ :=
  nsl.map (fun p => p.2.weight)

/-- `w_mean = mean(node_weights)` (workload_balancer.py line 217). -/
def wMean (nsl : List (String × NodeState)) : ℚ :=
  ((nodeWeights nsl).sum : ℚ) / ((nodeWeights nsl).length : ℚ)

/-- The sample variance underlying `w_stdev = stdev(node_weights)`
(workload_balancer.py line 218): `stdev` is the square root of
`Σ (x - mean)² / (n - 1)`. -/
def wVar (nsl : List (String × NodeState)) : ℚ :=
  (((nodeWeights nsl).map (fun w => ((w : ℚ) - wMean nsl) ^ 2)).sum)
    / (((nodeWeights nsl).length : ℚ) - 1)

/-- Decidable embedding of the strict comparison `a > √v` (for `v ≥ 0`):
`a` must be positive and `a²` must exceed `v`. Used for the source's two
comparisons against `w_stdev`; see `gtSqrt_iff_sqrt_lt`. -/
def gtSqrt (a v : ℚ) : Bool :=
  decide (0 < a ∧ v < a ^ 2)

/-- Destination classification (workload_balancer.py lines 235-240):
`state["weight"] < w_mean`. -/
def destCandidates (nsl : List (String × NodeState)) : List (String × NodeState) :=
  nsl.filter (fun p => decide ((p.2.weight : ℚ) < wMean nsl))

/-- Source classification (workload_balancer.py lines 241-246):
`state["weight"] > w_mean + w_stdev`, embedded as
`weight - w_mean > √(variance)` via `gtSqrt`. -/
def sourceCandidates (nsl : List (String × NodeState)) : List (String × NodeState) :=
  nsl.filter (fun p => gtSqrt ((p.2.weight : ℚ) - wMean nsl) (wVar nsl))

/-- `WorkloadBalancer.get_migration_candidates` (workload_balancer.py lines
178-299), taking the per-node snapshot (the `node_states` data the telemetry
loop builds) as input. `statistics.mean` raises `StatisticsError` on an
empty list and `statistics.stdev` raises it on fewer than two data points,
so fewer than two non-excluded nodes is modelled by `none`; the balanced
early return is `w_tolerance > w_stdev` (line 226), embedded via `gtSqrt`. -/
def get_migration_candidates (conf : Config) (allNodes : List (String × NodeState)) :
    Option (List MigrationSpec) :=
  let node_states := filteredNodes conf allNodes
  if node_states.length < 2 then none
  else if gtSqrt (wMean node_states * conf.tolerance) (wVar node_states) then some []
  else
    planLoop conf.max_migrations (sourceCandidates node_states).length
      (sourceCandidates node_states) (destCandidates node_states) []

/-- Outcome of one `migrate.post` submission to the control plane, as seen
by `do_migration`: success with a task UPID, a `ResourceException`
("resource locked"), or a `requests` `ConnectionError`. -/
inductive SubmitResult where
  | ok (upid : String)
  | resourceException (msg : String)
  | connectionError (msg : String)
  deriving DecidableEq, Repr

/-- `WorkloadBalancer.do_migration` (workload_balancer.py lines 301-332).
`submit kind source vmid target online` stands for the
`nodes(source).<kind>(vmid).migrate.post(target=..., online=...)` call;
an `lxc` spec is submitted with `online=0`, a `qemu` spec with `online=1`.
`ResourceException` and `ConnectionError` are caught and turned into the
failure value `(False, None)`; an unknown kind raises `TypeError`
(uncaught by the two `except` clauses), modelled by `Except.error`.
On success the decoded job's UPID is returned as `(True, job)`. -/
def do_migration (submit : String → String → String → String → ℕ → SubmitResult)
    (spec : MigrationSpec) : Except String (Bool × Option String) :=
  if spec.kind = "lxc" then
    match submit "lxc" spec.source spec.vmid spec.destination 0 with
    | SubmitResult.ok upid => Except.ok (true, some upid)
    | SubmitResult.resourceException _ => Except.ok (false, none)
    | SubmitResult.connectionError _ => Except.ok (false, none)
  else if spec.kind = "qemu" then
    match submit "qemu" spec.source spec.vmid spec.destination 1 with
    | SubmitResult.ok upid => Except.ok (true, some upid)
    | SubmitResult.resourceException _ => Except.ok (false, none)
    | SubmitResult.connectionError _ => Except.ok (false, none)
  else Except.error ("Unknown workload type: " ++ spec.kind)

/-- The executor loop in `runner.py` `main` (lines 367-374): call
`do_migration` on each candidate in order and collect the job specs; an
uncaught exception from `do_migration` (modelled `Except.error`) aborts the
run, while the `(False, None)` failure value is simply appended and the
loop continues with the remaining specs. -/
def run_migrations (submit : String → String → String → String → ℕ → SubmitResult) :
    List MigrationSpec → Except String (List (Option String))
  | [] => Except.ok []
  | c :: rest =>
    match do_migration submit c with
    | Except.error e => Except.error e
    | Except.ok (_, jobspec) =>
      match run_migrations submit rest with
      | Except.error e => Except.error e
      | Except.ok more => Except.ok (jobspec :: more)

/-- A `MigrationSpec` that one iteration of the planner's loop can emit when
the remaining source pool is a sub-pool of `S` and the remaining destination
pool is a sub-pool of `D`: its source is the first-seen highest-weight node
of the remaining sources, its workload (identified by `vmid`, `name`,
`kind`) is that node's first-seen lowest-weight workload, its destination is
what the ascending-order destination scan returns for that workload, and the
destination's recorded free memory and free CPU strictly exceed the
workload's `mem_used` and cpu-used (`cpu_max`) figures. -/
def EmittedFrom (S D : List (String × NodeState)) (spec : MigrationSpec) : Prop :=
  ∃ (S' D' : List (String × NodeState)) (sstate : NodeState) (w : Workload)
    (dstate : NodeState),
    S'.Sublist S ∧ D'.Sublist D ∧
    selectSource S' = some (spec.source, sstate) ∧
    selectWorkload sstate.workloads = some (spec.vmid, w) ∧
    w.name = spec.name ∧ w.kind = spec.kind ∧
    findDest D' w = some spec.destination ∧
    (spec.destination, dstate) ∈ D' ∧
    w.mem_used < (dstate.mem_free : ℚ) ∧ w.cpu_max < dstate.cpu_free

/-! ### Helper lemmas about the selection and scan primitives -/

/-- The fold inside `pickMaxBy` either keeps its seed (when nothing beats
it strictly) or lands on the first-seen element with the maximal key:
everything before that element is strictly smaller, everything after it is
no larger. -/
lemma pickMaxBy_foldl_spec {α : Type _} (key : α → ℤ) :
    ∀ (xs : List α) (b : α),
      (xs.foldl (fun b y => if key b < key y then y else b) b = b ∧
        ∀ x ∈ xs, key x ≤ key b) ∨
      (∃ l₁ l₂, xs = l₁ ++ (xs.foldl (fun b y => if key b < key y then y else b) b) :: l₂ ∧
        key b < key (xs.foldl (fun b y => if key b < key y then y else b) b) ∧
        (∀ x ∈ l₁, key x < key (xs.foldl (fun b y => if key b < key y then y else b) b)) ∧
        (∀ x ∈ l₂, key x ≤ key (xs.foldl (fun b y => if key b < key y then y else b) b))) := by
  intro xs
  induction xs with
  | nil => intro b; left; exact ⟨rfl, by simp⟩
  | cons y ys ih =>
    intro b
    by_cases h : key b < key y
    · have hstep : (y :: ys).foldl (fun b y => if key b < key y then y else b) b
          = ys.foldl (fun b y => if key b < key y then y else b) y := by
        simp [List.foldl_cons, if_pos h]
      rcases ih y with ⟨hr, hall⟩ | ⟨l₁, l₂, hys, hby, h1, h2⟩
      · right
        refine ⟨[], ys, ?_, ?_, by simp, ?_⟩
        · simp [hstep, hr]
        · rw [hstep, hr]; exact h
        · intro x hx; rw [hstep, hr]; exact hall x hx
      · right
        refine ⟨y :: l₁, l₂, ?_, ?_, ?_, ?_⟩
        · rw [hstep, List.cons_append]; exact congrArg (y :: ·) hys
        · rw [hstep]; exact lt_trans h hby
        · intro x hx
          rcases List.mem_cons.mp hx with rfl | hx
          · rw [hstep]; exact hby
          · rw [hstep]; exact h1 x hx
        · intro x hx; rw [hstep]; exact h2 x hx
    · have hstep : (y :: ys).foldl (fun b y => if key b < key y then y else b) b
          = ys.foldl (fun b y => if key b < key y then y else b) b := by
        simp [List.foldl_cons, if_neg h]
      have hyb : key y ≤ key b := le_of_not_lt h
      rcases ih b with ⟨hr, hall⟩ | ⟨l₁, l₂, hys, hby, h1, h2⟩
      · left
        refine ⟨by rw [hstep]; exact hr, ?_⟩
        intro x hx
        rcases List.mem_cons.mp hx with rfl | hx
        · exact hyb
        · exact hall x hx
      · right
        refine ⟨y :: l₁, l₂, ?_, ?_, ?_, ?_⟩
        · rw [hstep, List.cons_append]; exact congrArg (y :: ·) hys
        · rw [hstep]; exact hby
        · intro x hx
          rcases List.mem_cons.mp hx with rfl | hx
          · rw [hstep]; exact lt_of_le_of_lt hyb hby
          · rw [hstep]; exact h1 x hx
        · intro x hx; rw [hstep]; exact h2 x hx

/-- `pickMaxBy` returns the first-seen element with maximal key: the list
splits around the result, with strictly smaller keys before it and no
larger keys after it. -/
lemma pickMaxBy_spec {α : Type _} {key : α → ℤ} {l : List α} {s : α}
    (h : pickMaxBy key l = some s) :
    ∃ l₁ l₂, l = l₁ ++ s :: l₂ ∧ (∀ x ∈ l₁, key x < key s) ∧
      (∀ x ∈ l₂, key x ≤ key s) := by
  match l with
  | [] => simp [pickMaxBy] at h
  | x :: xs =>
    have hs : xs.foldl (fun b y => if key b < key y then y else b) x = s := by
      simpa [pickMaxBy] using h
    rcases pickMaxBy_foldl_spec key xs x with ⟨hr, hall⟩ | ⟨l₁, l₂, hys, hby, h1, h2⟩
    · obtain rfl : x = s := hr.symm.trans hs
      exact ⟨[], xs, rfl, by simp, hall⟩
    · rw [hs] at hys hby h1 h2
      refine ⟨x :: l₁, l₂, by rw [hys, List.cons_append], ?_, h2⟩
      intro z hz
      rcases List.mem_cons.mp hz with rfl | hz
      · exact hby
      · exact h1 z hz

/-- `pickMaxBy` returns an element of its input list. -/
lemma pickMaxBy_mem {α : Type _} {key : α → ℤ} {l : List α} {s : α}
    (h : pickMaxBy key l = some s) : s ∈ l := by
  obtain ⟨l₁, l₂, hl, -, -⟩ := pickMaxBy_spec h
  rw [hl]
  exact List.mem_append.mpr (Or.inr (List.mem_cons_self _ _))

/-- `pickMaxBy` returns `none` exactly on the empty list. -/
lemma pickMaxBy_eq_none {α : Type _} {key : α → ℤ} {l : List α} :
    pickMaxBy key l = none ↔ l = [] := by
  cases l <;> simp [pickMaxBy]

/-- `removeKey` only drops entries. -/
lemma removeKey_sublist (k : String) :
    ∀ l : List (String × NodeState), (removeKey k l).Sublist l := by
  intro l
  induction l with
  | nil => simp [removeKey]
  | cons x xs ih =>
    by_cases hx : x.1 = k
    · rw [removeKey, if_pos hx]
      exact List.sublist_cons_self x xs
    · rw [removeKey, if_neg hx]
      exact List.Sublist.cons₂ x ih

/-- After deleting key `k` from a list with no duplicate keys, `k` no
longer occurs among the keys. -/
lemma removeKey_key_not_mem {k : String} :
    ∀ {l : List (String × NodeState)}, (l.map Prod.fst).Nodup →
      k ∉ (removeKey k l).map Prod.fst := by
  intro l
  induction l with
  | nil => intro _; simp [removeKey]
  | cons x xs ih =>
    intro hnd
    rw [List.map_cons, List.nodup_cons] at hnd
    by_cases hx : x.1 = k
    · rw [removeKey, if_pos hx]
      rw [hx] at hnd
      exact hnd.1
    · rw [removeKey, if_neg hx, List.map_cons]
      intro hk
      rcases List.mem_cons.mp hk with hk | hk
      · exact hx hk.symm
      · exact ih hnd.2 hk

/-- An element found by `List.find?` splits the list, satisfies the
predicate, and everything before it fails the predicate. -/
lemma find?_decomp {α : Type _} {p : α → Bool} :
    ∀ {l : List α} {a : α}, l.find? p = some a →
      ∃ l₁ l₂, l = l₁ ++ a :: l₂ ∧ p a = true ∧ ∀ x ∈ l₁, p x = false := by
  intro l
  induction l with
  | nil => intro a h; simp [List.find?] at h
  | cons x xs ih =>
    intro a h
    by_cases hx : p x
    · rw [List.find?_cons_of_pos _ hx] at h
      cases h
      exact ⟨[], xs, rfl, hx, by simp⟩
    · rw [List.find?_cons_of_neg _ hx] at h
      obtain ⟨l₁, l₂, hl, hpa, hall⟩ := ih h
      refine ⟨x :: l₁, l₂, by rw [hl, List.cons_append], hpa, ?_⟩
      intro y hy
      rcases List.mem_cons.mp hy with rfl | hy
      · exact Bool.eq_false_iff.mpr (by simpa using hx)
      · exact hall y hy

instance : IsTotal (String × NodeState) (fun a b => a.2.weight ≤ b.2.weight) :=
  ⟨fun a b => le_total a.2.weight b.2.weight⟩

instance : IsTrans (String × NodeState) (fun a b => a.2.weight ≤ b.2.weight) :=
  ⟨fun _ _ _ hab hbc => le_trans hab hbc⟩

/-- `sortAsc` is a permutation of its input. -/
lemma sortAsc_perm (l : List (String × NodeState)) : (sortAsc l).Perm l :=
  List.perm_insertionSort _ l

/-- `sortAsc` sorts by ascending node weight. -/
lemma sortAsc_sorted (l : List (String × NodeState)) :
    List.Sorted (fun a b => a.2.weight ≤ b.2.weight) (sortAsc l) :=
  List.sorted_insertionSort _ l

/-- A successful destination scan: the returned name belongs to a pool
entry that passes the capacity test, that entry is the first qualifying one
in the ascending-order view of the pool, and the view is a sorted
permutation of the pool. -/
lemma findDest_decomp {dests : List (String × NodeState)} {w : Workload} {d : String}
    (h : findDest dests w = some d) :
    ∃ (st : NodeState) (l₁ l₂ : List (String × NodeState)),
      sortAsc dests = l₁ ++ (d, st) :: l₂ ∧ destQualifies w (d, st) = true ∧
      (∀ x ∈ l₁, destQualifies w x = false) := by
  rw [findDest, Option.map_eq_some'] at h
  obtain ⟨pr, hfind, hpr⟩ := h
  obtain ⟨pd, pst⟩ := pr
  obtain rfl : pd = d := hpr
  obtain ⟨l₁, l₂, hl, hq, hall⟩ := find?_decomp hfind
  exact ⟨pst, l₁, l₂, hl, hq, hall⟩

/-- A successful destination scan returns the name of a pool entry that
passes the capacity test. -/
lemma findDest_mem {dests : List (String × NodeState)} {w : Workload} {d : String}
    (h : findDest dests w = some d) :
    ∃ st : NodeState, (d, st) ∈ dests ∧ destQualifies w (d, st) = true := by
  obtain ⟨st, l₁, l₂, hl, hq, -⟩ := findDest_decomp h
  refine ⟨st, ?_, hq⟩
  have : (d, st) ∈ sortAsc dests := by
    rw [hl]
    exact List.mem_append.mpr (Or.inr (List.mem_cons_self _ _))
  exact (sortAsc_perm dests).mem_iff.mp this

/-- `gtSqrt a v` embeds the real comparison `√v < a`. -/
lemma gtSqrt_iff_sqrt_lt {a v : ℚ} :
    gtSqrt a v = true ↔ Real.sqrt (v : ℝ) < (a : ℝ) := by
  simp only [gtSqrt, decide_eq_true_eq]
  constructor
  · rintro ⟨ha, hav⟩
    rw [Real.sqrt_lt' (by exact_mod_cast ha)]
    exact_mod_cast hav
  · intro h
    have ha : (0 : ℝ) < (a : ℝ) := lt_of_le_of_lt (Real.sqrt_nonneg _) h
    refine ⟨by exact_mod_cast ha, ?_⟩
    have := (Real.sqrt_lt' ha).mp h
    exact_mod_cast this

/-- The sample variance of the node weights is never negative. -/
lemma wVar_nonneg (nsl : List (String × NodeState)) : 0 ≤ wVar nsl := by
  cases nsl with
  | nil => simp [wVar, nodeWeights]
  | cons x xs =>
    apply div_nonneg
    · apply List.sum_nonneg
      intro q hq
      obtain ⟨z, -, rfl⟩ := List.mem_map.mp hq
      exact sq_nonneg _
    · have : (1 : ℚ) ≤ ((nodeWeights (x :: xs)).length : ℚ) := by
        have : 1 ≤ (nodeWeights (x :: xs)).length := by
          simp [nodeWeights]
        exact_mod_cast this
      linarith

/-- In a list with no duplicate keys, a key determines its value. -/
lemma nodup_keys_unique {β : Type _} :
    ∀ {l : List (String × β)}, (l.map Prod.fst).Nodup →
      ∀ {k : String} {a b : β}, (k, a) ∈ l → (k, b) ∈ l → a = b := by
  intro l
  induction l with
  | nil => intro _ k a b ha _; simp at ha
  | cons x xs ih =>
    intro hnd k a b ha hb
    rw [List.map_cons, List.nodup_cons] at hnd
    rcases List.mem_cons.mp ha with ha' | ha'
    · rcases List.mem_cons.mp hb with hb' | hb'
      · rw [← ha'] at hb'
        exact (congrArg Prod.snd hb').symm
      · exfalso
        apply hnd.1
        rw [← ha']
        exact List.mem_map.mpr ⟨(k, b), hb', rfl⟩
    · rcases List.mem_cons.mp hb with hb' | hb'
      · exfalso
        apply hnd.1
        rw [← hb']
        exact List.mem_map.mpr ⟨(k, a), ha', rfl⟩
      · exact ih hnd.2 ha' hb'

/-- `EmittedFrom` is monotone in both pools. -/
lemma EmittedFrom_mono {S S₂ D D₂ : List (String × NodeState)} {spec : MigrationSpec}
    (hS : S.Sublist S₂) (hD : D.Sublist D₂) (h : EmittedFrom S D spec) :
    EmittedFrom S₂ D₂ spec := by
  obtain ⟨S', D', sstate, w, dstate, hS', hD', hsel, hwl, hn, hk, hfd, hdm, hm, hc⟩ := h
  exact ⟨S', D', sstate, w, dstate, hS'.trans hS, hD'.trans hD, hsel, hwl, hn, hk, hfd, hdm, hm, hc⟩

/-- Every proposal the planner's loop adds beyond the incoming accumulator
was emitted by one loop iteration over sub-pools of the starting pools. -/
lemma planLoop_emits {maxMig : ℕ} :
    ∀ (fuel : ℕ) (S D : List (String × NodeState)) (P out : List MigrationSpec),
      planLoop maxMig fuel S D P = some out →
      ∀ spec ∈ out, spec ∈ P ∨ EmittedFrom S D spec := by
  intro fuel
  induction fuel with
  | zero =>
    intro S D P out h spec hs
    rw [planLoop] at h
    cases h
    exact Or.inl hs
  | succ n ih =>
    intro S D P out h spec hspec
    rw [planLoop] at h
    split at h
    · split at h
      · cases h
        exact Or.inl hspec
      · rename_i sname sstate hsel
        split at h
        · cases h
        · rename_i vmid w hwl
          split at h
          · rcases ih _ _ _ _ h spec hspec with hP | hE
            · exact Or.inl hP
            · exact Or.inr (EmittedFrom_mono (removeKey_sublist sname S)
                (List.Sublist.refl D) hE)
          · rename_i dname hfd
            rcases ih _ _ _ _ h spec hspec with hP | hE
            · rcases List.mem_append.mp hP with hP | hnew
              · exact Or.inl hP
              · obtain rfl : spec = ⟨sname, dname, w.name, vmid, w.kind⟩ := by
                  simpa using hnew
                obtain ⟨dstate, hdm, hq⟩ := findDest_mem hfd
                have hq' := of_decide_eq_true hq
                exact Or.inr ⟨S, D, sstate, w, dstate, List.Sublist.refl S, List.Sublist.refl D,
                  hsel, hwl, rfl, rfl, hfd, hdm, hq'.1, hq'.2⟩
            · exact Or.inr (EmittedFrom_mono (removeKey_sublist sname S)
                (removeKey_sublist dname D) hE)
    · cases h
      exact Or.inl hspec

/-- The loop guard admits a new proposal only while
`proposals.length ≤ max_migrations`, so the accumulator never grows past
`max_migrations + 1`. -/
lemma planLoop_length {maxMig : ℕ} :
    ∀ (fuel : ℕ) (S D : List (String × NodeState)) (P out : List MigrationSpec),
      planLoop maxMig fuel S D P = some out →
      P.length ≤ maxMig + 1 → out.length ≤ maxMig + 1 := by
  intro fuel
  induction fuel with
  | zero =>
    intro S D P out h hP
    rw [planLoop] at h
    cases h
    exact hP
  | succ n ih =>
    intro S D P out h hP
    rw [planLoop] at h
    split at h
    · rename_i hguard
      split at h
      · cases h
        exact hP
      · rename_i sname sstate hsel
        split at h
        · cases h
        · rename_i vmid w hwl
          split at h
          · exact ih _ _ _ _ h hP
          · rename_i dname hfd
            refine ih _ _ _ _ h ?_
            have hlen : P.length ≤ maxMig := hguard.2.2
            simp only [List.length_append, List.length_cons, List.length_nil]
            omega
    · cases h
      exact hP

/-- Each accepted destination is deleted from the pool before the next
iteration, so—starting from a pool with distinct names and an accumulator
whose destinations avoid the pool—the emitted destinations are pairwise
distinct. -/
lemma planLoop_nodup_dests {maxMig : ℕ} :
    ∀ (fuel : ℕ) (S D : List (String × NodeState)) (P out : List MigrationSpec),
      planLoop maxMig fuel S D P = some out →
      (D.map Prod.fst).Nodup →
      (P.map (fun s => s.destination)).Nodup →
      (∀ spec ∈ P, spec.destination ∉ D.map Prod.fst) →
      (out.map (fun s => s.destination)).Nodup := by
  intro fuel
  induction fuel with
  | zero =>
    intro S D P out h hD hP hPD
    rw [planLoop] at h
    cases h
    exact hP
  | succ n ih =>
    intro S D P out h hD hP hPD
    rw [planLoop] at h
    split at h
    · split at h
      · cases h
        exact hP
      · rename_i sname sstate hsel
        split at h
        · cases h
        · rename_i vmid w hwl
          split at h
          · exact ih _ _ _ _ h hD hP hPD
          · rename_i dname hfd
            obtain ⟨dstate, hdmem, -⟩ := findDest_mem hfd
            have hdname : dname ∈ D.map Prod.fst := List.mem_map.mpr ⟨(dname, dstate), hdmem, rfl⟩
            refine ih _ _ _ _ h ?_ ?_ ?_
            · exact hD.sublist ((removeKey_sublist dname D).map Prod.fst)
            · rw [List.map_append, List.nodup_append]
              refine ⟨hP, by simp, ?_⟩
              intro x hx hx'
              have hxd : x = dname := by simpa using hx'
              obtain ⟨p, hpP, hpx⟩ := List.mem_map.mp hx
              apply hPD p hpP
              rw [hpx, hxd]
              exact hdname
            · intro spec' hspec'
              rcases List.mem_append.mp hspec' with hspec' | hnew
              · intro hmem
                exact hPD spec' hspec'
                  (((removeKey_sublist dname D).map Prod.fst).subset hmem)
              · obtain rfl : spec' = ⟨sname, dname, w.name, vmid, w.kind⟩ := by
                  simpa using hnew
                exact removeKey_key_not_mem hD
    · cases h
      exact hP

/-- The selected source is deleted from the pool in every iteration
(whether or not a destination qualifies), so—starting from a pool with
distinct names and an accumulator whose sources avoid the pool—the emitted
sources are pairwise distinct. -/
lemma planLoop_nodup_sources {maxMig : ℕ} :
    ∀ (fuel : ℕ) (S D : List (String × NodeState)) (P out : List MigrationSpec),
      planLoop maxMig fuel S D P = some out →
      (S.map Prod.fst).Nodup →
      (P.map (fun s => s.source)).Nodup →
      (∀ spec ∈ P, spec.source ∉ S.map Prod.fst) →
      (out.map (fun s => s.source)).Nodup := by
  intro fuel
  induction fuel with
  | zero =>
    intro S D P out h hS hP hPS
    rw [planLoop] at h
    cases h
    exact hP
  | succ n ih =>
    intro S D P out h hS hP hPS
    rw [planLoop] at h
    split at h
    · split at h
      · cases h
        exact hP
      · rename_i sname sstate hsel
        have hsname : sname ∈ S.map Prod.fst :=
          List.mem_map.mpr ⟨(sname, sstate), pickMaxBy_mem hsel, rfl⟩
        split at h
        · cases h
        · rename_i vmid w hwl
          split at h
          · refine ih _ _ _ _ h ?_ hP ?_
            · exact hS.sublist ((removeKey_sublist sname S).map Prod.fst)
            · intro spec' hspec' hmem
              exact hPS spec' hspec'
                (((removeKey_sublist sname S).map Prod.fst).subset hmem)
          · rename_i dname hfd
            refine ih _ _ _ _ h ?_ ?_ ?_
            · exact hS.sublist ((removeKey_sublist sname S).map Prod.fst)
            · rw [List.map_append, List.nodup_append]
              refine ⟨hP, by simp, ?_⟩
              intro x hx hx'
              have hxs : x = sname := by simpa using hx'
              obtain ⟨p, hpP, hpx⟩ := List.mem_map.mp hx
              apply hPS p hpP
              rw [hpx, hxs]
              exact hsname
            · intro spec' hspec'
              rcases List.mem_append.mp hspec' with hspec' | hnew
              · intro hmem
                exact hPS spec' hspec'
                  (((removeKey_sublist sname S).map Prod.fst).subset hmem)
              · obtain rfl : spec' = ⟨sname, dname, w.name, vmid, w.kind⟩ := by
                  simpa using hnew
                exact removeKey_key_not_mem hS
    · cases h
      exact hP

/-! ### Behaviour of `balance_resource_weights` -/

/-- In the `sum > 1` block, when cpu is strictly larger only the first of
the three sequential `if`s fires. -/
lemma brwOver_gt {pc pm : ℚ} (h1 : 1 < pc + pm) (h : pm < pc) :
    brwOver pc pm = (min pc 1, 1 - min pc 1) := by
  have hmin : (1 : ℚ)/2 < min pc 1 := lt_min (by linarith) (by norm_num)
  have hgt : pc > pm := h
  simp only [brwOver, if_pos hgt]
  split_ifs with h2 h3 h4 <;> dsimp only at * <;> first | rfl | (exfalso; linarith)

/-- In the `sum > 1` block, when mem is strictly larger only the second of
the three sequential `if`s fires. -/
lemma brwOver_lt {pc pm : ℚ} (h1 : 1 < pc + pm) (h : pc < pm) :
    brwOver pc pm = (1 - min pm 1, min pm 1) := by
  have hmin : (1 : ℚ)/2 < min pm 1 := lt_min (by linarith) (by norm_num)
  have hngt : ¬ (pc > pm) := by linarith
  simp only [brwOver, if_neg hngt]
  split_ifs with h2
  all_goals dsimp only at *
  all_goals first | rfl | (exfalso; linarith)

/-- In the `sum > 1` block, equal values are reset to one half. -/
lemma brwOver_eq {pc pm : ℚ} (h : pc = pm) : brwOver pc pm = (1/2, 1/2) := by
  subst h
  simp [brwOver]

/-- In the `sum < 1` block, when cpu is strictly larger only the first of
the three sequential `if`s fires: the larger value is raised to
`1 - smaller`. -/
lemma brwUnder_gt {pc pm : ℚ} (h2 : pc + pm < 1) (h : pm < pc) :
    brwUnder pc pm = (1 - pm, pm) := by
  have hgt : pc > pm := h
  have hpm : pm < 1/2 := by linarith
  simp only [brwUnder, if_pos hgt]
  split_ifs with h2 h3 h4 <;> dsimp only at * <;> first | rfl | (exfalso; linarith)

/-- In the `sum < 1` block, when mem is strictly larger only the second of
the three sequential `if`s fires: the larger value is raised to
`1 - smaller`. -/
lemma brwUnder_lt {pc pm : ℚ} (h2 : pc + pm < 1) (h : pc < pm) :
    brwUnder pc pm = (pc, 1 - pc) := by
  have hngt : ¬ (pc > pm) := by linarith
  have hpc : pc < 1/2 := by linarith
  simp only [brwUnder, if_neg hngt]
  split_ifs with h2 h3 h4 <;> dsimp only at * <;> first | rfl | (exfalso; linarith)

/-- In the `sum < 1` block, equal values are reset to one half. -/
lemma brwUnder_eq {pc pm : ℚ} (h : pc = pm) : brwUnder pc pm = (1/2, 1/2) := by
  subst h
  simp [brwUnder]

/-- `balance_resource_weights` computes exactly the explicit normalization
rule: the sequential `if`s of the source cannot cascade. -/
lemma brw_eq_rule (pc pm : ℚ) :
    balance_resource_weights pc pm = normalize_rule pc pm := by
  rcases lt_trichotomy (pc + pm) 1 with hs | hs | hs
  · have hn1 : ¬ (pc + pm > 1) := by linarith
    have hbrw : balance_resource_weights pc pm = brwUnder pc pm := by
      simp only [balance_resource_weights, if_neg hn1]
      rw [if_pos hs]
    rcases lt_trichotomy pm pc with hc | hc | hc
    · rw [hbrw, brwUnder_gt hs hc, normalize_rule, if_neg hn1, if_pos hs,
        if_pos (show pc > pm from hc)]
    · rw [hbrw, brwUnder_eq hc.symm, normalize_rule, if_neg hn1, if_pos hs,
        if_neg (by rw [hc]; exact lt_irrefl pc), if_neg (by rw [hc]; exact lt_irrefl pc)]
    · rw [hbrw, brwUnder_lt hs hc, normalize_rule, if_neg hn1, if_pos hs,
        if_neg (by intro hgt; exact absurd hc (not_lt.mpr (le_of_lt hgt))),
        if_pos (show pm > pc from hc)]
  · have hn1 : ¬ (pc + pm > 1) := by linarith
    have hn2 : ¬ (pc + pm < 1) := by linarith
    simp only [balance_resource_weights, normalize_rule, if_neg hn1, if_neg hn2]
  · have hgt1 : pc + pm > 1 := hs
    rcases lt_trichotomy pm pc with hc | hc | hc
    · have hov := brwOver_gt hs hc
      have hsum : (brwOver pc pm).1 + (brwOver pc pm).2 = 1 := by
        rw [hov]; ring
      have hbrw : balance_resource_weights pc pm = brwOver pc pm := by
        simp only [balance_resource_weights, if_pos hgt1]
        rw [if_neg (by rw [hsum]; exact lt_irrefl 1)]
      rw [hbrw, hov, normalize_rule, if_pos hgt1, if_pos (show pc > pm from hc)]
    · have hov := brwOver_eq hc.symm
      have hsum : (brwOver pc pm).1 + (brwOver pc pm).2 = 1 := by
        rw [hov]; norm_num
      have hbrw : balance_resource_weights pc pm = brwOver pc pm := by
        simp only [balance_resource_weights, if_pos hgt1]
        rw [if_neg (by rw [hsum]; exact lt_irrefl 1)]
      rw [hbrw, hov, normalize_rule, if_pos hgt1,
        if_neg (by rw [hc]; exact lt_irrefl pc), if_neg (by rw [hc]; exact lt_irrefl pc)]
    · have hov := brwOver_lt hs hc
      have hsum : (brwOver pc pm).1 + (brwOver pc pm).2 = 1 := by
        rw [hov]; ring
      have hbrw : balance_resource_weights pc pm = brwOver pc pm := by
        simp only [balance_resource_weights, if_pos hgt1]
        rw [if_neg (by rw [hsum]; exact lt_irrefl 1)]
      rw [hbrw, hov, normalize_rule, if_pos hgt1,
        if_neg (by intro hgt; exact absurd hc (not_lt.mpr (le_of_lt hgt))),
        if_pos (show pm > pc from hc)]

/-- The explicit rule always produces a pair summing to exactly 1. -/
lemma normalize_rule_sum (pc pm : ℚ) :
    (normalize_rule pc pm).1 + (normalize_rule pc pm).2 = 1 := by
  simp only [normalize_rule]
  split_ifs <;> dsimp only <;> linarith

/-- `balance_resource_weights` always produces a pair summing to exactly 1. -/
lemma brw_sum (pc pm : ℚ) :
    (balance_resource_weights pc pm).1 + (balance_resource_weights pc pm).2 = 1 := by
  rw [brw_eq_rule]
  exact normalize_rule_sum pc pm

/-! ### Claim theorems -/

/-- C3, counterexample: the claim predicts `(0.8, 0.1) ↦ (0.8, 0.2)` (the
smaller value raised to `1 - larger`); `balance_resource_weights` instead
raises the larger value and yields `(0.9, 0.1)`. -/
theorem normalization_smaller_raised_counterexample :
    balance_resource_weights (4/5) (1/10) = (9/10, 1/10) ∧
    balance_resource_weights (4/5) (1/10) ≠ (4/5, 1/5) := by
  have h : balance_resource_weights (4/5) (1/10) = (9/10, 1/10) := by
    rw [brw_eq_rule]
    norm_num [normalize_rule]
  refine ⟨h, ?_⟩
  rw [h]
  norm_num [Prod.ext_iff]

/-- C3, amended: normalization follows the explicit rule — when the sum
exceeds 1 the larger value is clamped to at most 1 and the other is set to
`1 - larger`; when the sum is below 1 the larger value is increased to
`1 - smaller`; equal values are reset to `0.5`. In particular
`(0.9, 0.9) ↦ (0.5, 0.5)`, `(0.8, 0.1) ↦ (0.9, 0.1)` and
`(0.1, 0.1) ↦ (0.5, 0.5)`. -/
theorem normalization_follows_rule :
    (∀ pc pm : ℚ, balance_resource_weights pc pm = normalize_rule pc pm) ∧
    balance_resource_weights (9/10) (9/10) = (1/2, 1/2) ∧
    balance_resource_weights (4/5) (1/10) = (9/10, 1/10) ∧
    balance_resource_weights (1/10) (1/10) = (1/2, 1/2) := by
  refine ⟨brw_eq_rule, ?_, ?_, ?_⟩ <;> rw [brw_eq_rule] <;> norm_num [normalize_rule]

/-- C4: after any assignment through the `percent_cpu` or `percent_mem`
setter (each of which re-runs `balance_resource_weights`), the stored
proportions sum to exactly 1, for every starting configuration and every
assigned value. -/
theorem percent_weights_sum_to_one (c : Config) (v : ℚ) :
    (set_percent_cpu c v).percent_cpu + (set_percent_cpu c v).percent_mem = 1 ∧
    (set_percent_mem c v).percent_cpu + (set_percent_mem c v).percent_mem = 1 := by
  constructor
  · simpa [set_percent_cpu] using brw_sum v c.percent_mem
  · simpa [set_percent_mem] using brw_sum c.percent_cpu v

/-- C8: `do_migration` dispatches on the spec's kind with a fixed liveness
policy — an `lxc` spec's outcome is determined by the control plane's answer
to the `online=0` (cold) submission and a `qemu` spec's by the answer to the
`online=1` (live) submission; a resource-locked or connection error makes it
return the failure value `(false, none)` instead of raising; and the
executor loop keeps processing the remaining specs after such a failure. -/
theorem migration_dispatch_and_error_policy :
    (∀ (submit submit' : String → String → String → String → ℕ → SubmitResult)
        (spec : MigrationSpec), spec.kind = "lxc" →
        submit "lxc" spec.source spec.vmid spec.destination 0 =
          submit' "lxc" spec.source spec.vmid spec.destination 0 →
        do_migration submit spec = do_migration submit' spec) ∧
    (∀ (submit submit' : String → String → String → String → ℕ → SubmitResult)
        (spec : MigrationSpec), spec.kind = "qemu" →
        submit "qemu" spec.source spec.vmid spec.destination 1 =
          submit' "qemu" spec.source spec.vmid spec.destination 1 →
        do_migration submit spec = do_migration submit' spec) ∧
    (∀ (submit : String → String → String → String → ℕ → SubmitResult)
        (spec : MigrationSpec) (msg : String), spec.kind = "lxc" →
        (submit "lxc" spec.source spec.vmid spec.destination 0 = SubmitResult.resourceException msg ∨
         submit "lxc" spec.source spec.vmid spec.destination 0 = SubmitResult.connectionError msg) →
        do_migration submit spec = Except.ok (false, none)) ∧
    (∀ (submit : String → String → String → String → ℕ → SubmitResult)
        (spec : MigrationSpec) (msg : String), spec.kind = "qemu" →
        (submit "qemu" spec.source spec.vmid spec.destination 1 = SubmitResult.resourceException msg ∨
         submit "qemu" spec.source spec.vmid spec.destination 1 = SubmitResult.connectionError msg) →
        do_migration submit spec = Except.ok (false, none)) ∧
    (∀ (submit : String → String → String → String → ℕ → SubmitResult)
        (c : MigrationSpec) (rest : List MigrationSpec) (b : Bool) (j : Option String),
        do_migration submit c = Except.ok (b, j) →
        run_migrations submit (c :: rest) =
          Except.map (fun more => j :: more) (run_migrations submit rest)) := by
  refine ⟨?_, ?_, ?_, ?_, ?_⟩
  · intro submit submit' spec hk heq
    simp only [do_migration, hk, if_pos]
    rw [heq]
  · intro submit submit' spec hk heq
    have hne : ("qemu" : String) ≠ "lxc" := by decide
    simp only [do_migration, hk, if_neg hne, if_pos]
    rw [heq]
  · intro submit spec msg hk herr
    simp only [do_migration, hk, if_pos]
    rcases herr with herr | herr <;> rw [herr]
  · intro submit spec msg hk herr
    have hne : ("qemu" : String) ≠ "lxc" := by decide
    simp only [do_migration, hk, if_neg hne, if_pos]
    rcases herr with herr | herr <;> rw [herr]
  · intro submit c rest b j h
    rw [run_migrations, h]
    cases hrest : run_migrations submit rest <;> simp [Except.map]

/-- C9: the workload weight computation clamps `cpu_used` to a minimum of
`0.001` before dividing by `cpu_max`, so the returned cpu-used figure is
always at least `0.001`; the node weight computation divides by `cpu_free`
and `mem_free_no_ksm` with no such clamp — it raises (returns `none`)
exactly when either denominator is zero, and each weight term flips sign
when its denominator turns negative. -/
theorem weight_division_guards :
    (∀ (conf : Config) (mhz : ℚ) (w : WorkloadRaw) (r : ℤ × ℚ × ℚ),
        get_workload_state conf mhz w = some r → 1/1000 ≤ r.2.2) ∧
    (∀ (conf : Config) (ns : NodeStatus),
        get_node_state conf ns = none ↔ (node_cpu_free ns = 0 ∨ memFreeNoKsm ns = 0)) ∧
    (∀ (conf : Config) (ns : NodeStatus), 0 < conf.percent_cpu →
        0 < ns.cpu_mhz * ns.cpu_cores →
        (node_cpu_free ns < 0 → node_w_cpu conf ns < 0) ∧
        (0 < node_cpu_free ns → 0 < node_w_cpu conf ns)) ∧
    (∀ (conf : Config) (ns : NodeStatus), 0 < conf.percent_mem →
        0 < ns.mem_total →
        ((memFreeNoKsm ns : ℚ) < 0 → node_w_mem conf ns < 0) ∧
        (0 < (memFreeNoKsm ns : ℚ) → 0 < node_w_mem conf ns)) := by
  refine ⟨?_, ?_, ?_, ?_⟩
  · intro conf mhz w r h
    simp only [get_workload_state] at h
    split at h
    · cases h
    · rename_i hden
      cases h
      dsimp only
      split_ifs with hle
      · exact le_refl _
      · linarith
  · intro conf ns
    by_cases hc : node_cpu_free ns = 0 ∨ memFreeNoKsm ns = 0 <;>
      simp [get_node_state, hc]
  · intro conf ns hpc hT
    constructor
    · intro hF
      have hdiv : (ns.cpu_mhz * ns.cpu_cores) / node_cpu_free ns < 0 :=
        div_neg_of_pos_of_neg hT hF
      have : conf.percent_cpu * ((ns.cpu_mhz * ns.cpu_cores) / node_cpu_free ns) < 0 :=
        mul_neg_of_pos_of_neg hpc hdiv
      have h100 : (0:ℚ) < 100 := by norm_num
      calc node_w_cpu conf ns
          = conf.percent_cpu * ((ns.cpu_mhz * ns.cpu_cores) / node_cpu_free ns) * 100 := rfl
        _ < 0 := mul_neg_of_neg_of_pos this h100
    · intro hF
      have hdiv : 0 < (ns.cpu_mhz * ns.cpu_cores) / node_cpu_free ns :=
        div_pos hT hF
      have : 0 < conf.percent_cpu * ((ns.cpu_mhz * ns.cpu_cores) / node_cpu_free ns) :=
        mul_pos hpc hdiv
      have h100 : (0:ℚ) < 100 := by norm_num
      calc (0:ℚ) < conf.percent_cpu * ((ns.cpu_mhz * ns.cpu_cores) / node_cpu_free ns) * 100 :=
            mul_pos this h100
        _ = node_w_cpu conf ns := rfl
  · intro conf ns hpm hT
    have hTq : (0:ℚ) < (ns.mem_total : ℚ) := by exact_mod_cast hT
    constructor
    · intro hF
      have hdiv : (ns.mem_total : ℚ) / (memFreeNoKsm ns : ℚ) < 0 :=
        div_neg_of_pos_of_neg hTq hF
      have : conf.percent_mem * ((ns.mem_total : ℚ) / (memFreeNoKsm ns : ℚ)) < 0 :=
        mul_neg_of_pos_of_neg hpm hdiv
      have h100 : (0:ℚ) < 100 := by norm_num
      calc node_w_mem conf ns
          = conf.percent_mem * ((ns.mem_total : ℚ) / (memFreeNoKsm ns : ℚ)) * 100 := rfl
        _ < 0 := mul_neg_of_neg_of_pos this h100
    · intro hF
      have hdiv : 0 < (ns.mem_total : ℚ) / (memFreeNoKsm ns : ℚ) :=
        div_pos hTq hF
      have : 0 < conf.percent_mem * ((ns.mem_total : ℚ) / (memFreeNoKsm ns : ℚ)) :=
        mul_pos hpm hdiv
      have h100 : (0:ℚ) < 100 := by norm_num
      calc (0:ℚ) < conf.percent_mem * ((ns.mem_total : ℚ) / (memFreeNoKsm ns : ℚ)) * 100 :=
            mul_pos this h100
        _ = node_w_mem conf ns := rfl

/-- C10: the balance test computes the sample standard deviation of the
node weights, which `statistics` refuses for fewer than two data points, so
with zero or one non-excluded node `get_migration_candidates` raises
(returns `none`) instead of returning a proposal list. -/
theorem fewer_than_two_nodes_error (conf : Config) (allNodes : List (String × NodeState))
    (h : (filteredNodes conf allNodes).length ≤ 1) :
    get_migration_candidates conf allNodes = none := by
  simp only [get_migration_candidates]
  rw [if_pos (by omega)]

/-- A successful `get_migration_candidates` run either stopped at the
balanced early return (empty output) or ran the planner loop on the
classified candidate pools. -/
lemma gmc_cases {conf : Config} {allNodes : List (String × NodeState)}
    {out : List MigrationSpec}
    (h : get_migration_candidates conf allNodes = some out) :
    out = [] ∨
    planLoop conf.max_migrations (sourceCandidates (filteredNodes conf allNodes)).length
      (sourceCandidates (filteredNodes conf allNodes))
      (destCandidates (filteredNodes conf allNodes)) [] = some out := by
  simp only [get_migration_candidates] at h
  split at h
  · cases h
  · split at h
    · cases h
      exact Or.inl rfl
    · exact Or.inr h

/-- Filtering preserves distinctness of the node names. -/
lemma filter_keys_nodup {l : List (String × NodeState)} (p : String × NodeState → Bool)
    (hnd : (l.map Prod.fst).Nodup) : ((l.filter p).map Prod.fst).Nodup :=
  hnd.sublist ((List.filter_sublist l).map Prod.fst)

/-- C1: whenever `tolerance * mean(weights)` strictly exceeds the sample
standard deviation of the node weights (at least two non-excluded nodes
must exist for the standard deviation to be defined),
`get_migration_candidates` returns the empty proposal list. -/
theorem balanced_cluster_no_proposals (conf : Config) (allNodes : List (String × NodeState))
    (h2 : 2 ≤ (filteredNodes conf allNodes).length)
    (hbal : Real.sqrt ((wVar (filteredNodes conf allNodes) : ℚ) : ℝ)
      < ((conf.tolerance * wMean (filteredNodes conf allNodes) : ℚ) : ℝ)) :
    get_migration_candidates conf allNodes = some [] := by
  have hg : gtSqrt (wMean (filteredNodes conf allNodes) * conf.tolerance)
      (wVar (filteredNodes conf allNodes)) = true := by
    rw [gtSqrt_iff_sqrt_lt, mul_comm]
    exact hbal
  simp only [get_migration_candidates]
  rw [if_neg (by omega), if_pos hg]

/-- C6: for every input and configuration, a successful pass returns at
most `max_migrations + 1` proposals (the guard's `≤` admits one proposal
beyond the configured cap). -/
theorem proposals_bounded_by_max_plus_one (conf : Config)
    (allNodes : List (String × NodeState)) (out : List MigrationSpec)
    (h : get_migration_candidates conf allNodes = some out) :
    out.length ≤ conf.max_migrations + 1 := by
  rcases gmc_cases h with rfl | hplan
  · simp
  · exact planLoop_length _ _ _ _ _ hplan (by simp)

/-- The node filter preserves distinctness of the node names. -/
lemma filtered_keys_nodup {conf : Config} {allNodes : List (String × NodeState)}
    (hnd : (allNodes.map Prod.fst).Nodup) :
    ((filteredNodes conf allNodes).map Prod.fst).Nodup := by
  simp only [filteredNodes]
  exact filter_keys_nodup _ hnd

/-- Destination classification preserves distinctness of the node names. -/
lemma destCandidates_keys_nodup {nsl : List (String × NodeState)}
    (hnd : (nsl.map Prod.fst).Nodup) :
    ((destCandidates nsl).map Prod.fst).Nodup := by
  simp only [destCandidates]
  exact filter_keys_nodup _ hnd

/-- Source classification preserves distinctness of the node names. -/
lemma sourceCandidates_keys_nodup {nsl : List (String × NodeState)}
    (hnd : (nsl.map Prod.fst).Nodup) :
    ((sourceCandidates nsl).map Prod.fst).Nodup := by
  simp only [sourceCandidates]
  exact filter_keys_nodup _ hnd

/-- C2: every emitted `MigrationSpec` came from a loop iteration whose
chosen destination passed the strict capacity test against the chosen
workload's recorded `mem_used` and cpu-used figures (part of
`EmittedFrom`); the destination scan returns exactly the first qualifying
entry of the ascending-weight view of the remaining pool; and an accepted
destination leaves the pool, so no destination is proposed twice in one
pass. -/
theorem destination_capacity_and_scan_order (conf : Config)
    (allNodes : List (String × NodeState)) (out : List MigrationSpec)
    (hnd : (allNodes.map Prod.fst).Nodup)
    (h : get_migration_candidates conf allNodes = some out) :
    (∀ spec ∈ out,
      EmittedFrom (sourceCandidates (filteredNodes conf allNodes))
        (destCandidates (filteredNodes conf allNodes)) spec) ∧
    (∀ (D : List (String × NodeState)) (w : Workload) (d : String),
      findDest D w = some d →
      ∃ (st : NodeState) (l₁ l₂ : List (String × NodeState)),
        sortAsc D = l₁ ++ (d, st) :: l₂ ∧
        destQualifies w (d, st) = true ∧
        (∀ x ∈ l₁, destQualifies w x = false) ∧
        List.Sorted (fun a b => a.2.weight ≤ b.2.weight) (sortAsc D) ∧
        (sortAsc D).Perm D) ∧
    (out.map (fun s => s.destination)).Nodup := by
  refine ⟨?_, ?_, ?_⟩
  · intro spec hspec
    rcases gmc_cases h with rfl | hplan
    · simp at hspec
    · rcases planLoop_emits _ _ _ _ _ hplan spec hspec with hP | hE
      · simp at hP
      · exact hE
  · intro D w d hfd
    obtain ⟨st, l₁, l₂, hl, hq, hall⟩ := findDest_decomp hfd
    exact ⟨st, l₁, l₂, hl, hq, hall, sortAsc_sorted D, sortAsc_perm D⟩
  · rcases gmc_cases h with rfl | hplan
    · simp
    · exact planLoop_nodup_dests _ _ _ _ _ hplan
        (destCandidates_keys_nodup (filtered_keys_nodup hnd)) (by simp) (by simp)

/-- C7: every emitted spec's source was returned by `selectSource` on a
remaining sub-pool of the source candidates and its workload by
`selectWorkload` on that source's workloads (part of `EmittedFrom`);
`selectSource` returns the first-seen highest-weight entry and
`selectWorkload` the first-seen lowest-weight entry; and each source is
removed from the pool when processed, so no source is the origin of two
proposals in one pass. -/
theorem source_and_workload_selection (conf : Config)
    (allNodes : List (String × NodeState)) (out : List MigrationSpec)
    (hnd : (allNodes.map Prod.fst).Nodup)
    (h : get_migration_candidates conf allNodes = some out) :
    (∀ spec ∈ out,
      EmittedFrom (sourceCandidates (filteredNodes conf allNodes))
        (destCandidates (filteredNodes conf allNodes)) spec) ∧
    (∀ (l : List (String × NodeState)) (p : String × NodeState),
      selectSource l = some p →
      ∃ l₁ l₂, l = l₁ ++ p :: l₂ ∧
        (∀ x ∈ l₁, x.2.weight < p.2.weight) ∧
        (∀ x ∈ l₂, x.2.weight ≤ p.2.weight)) ∧
    (∀ (l : List (String × Workload)) (p : String × Workload),
      selectWorkload l = some p →
      ∃ l₁ l₂, l = l₁ ++ p :: l₂ ∧
        (∀ x ∈ l₁, p.2.weight < x.2.weight) ∧
        (∀ x ∈ l₂, p.2.weight ≤ x.2.weight)) ∧
    (out.map (fun s => s.source)).Nodup := by
  refine ⟨?_, ?_, ?_, ?_⟩
  · intro spec hspec
    rcases gmc_cases h with rfl | hplan
    · simp at hspec
    · rcases planLoop_emits _ _ _ _ _ hplan spec hspec with hP | hE
      · simp at hP
      · exact hE
  · intro l p hsel
    obtain ⟨l₁, l₂, hl, h1, h2⟩ := pickMaxBy_spec hsel
    exact ⟨l₁, l₂, hl, h1, h2⟩
  · intro l p hsel
    obtain ⟨l₁, l₂, hl, h1, h2⟩ := pickMaxBy_spec hsel
    refine ⟨l₁, l₂, hl, ?_, ?_⟩
    · intro x hx
      have := h1 x hx
      omega
    · intro x hx
      have := h2 x hx
      omega
  · rcases gmc_cases h with rfl | hplan
    · simp
    · exact planLoop_nodup_sources _ _ _ _ _ hplan
        (sourceCandidates_keys_nodup (filtered_keys_nodup hnd)) (by simp) (by simp)

/-- C5: destination candidates are exactly the nodes with weight strictly
below the mean and source candidates exactly those with weight strictly
above `mean + stdev` (so a node strictly between them is neither); no node
entry is in both pools; and consequently every emitted spec moves a
workload between two distinct nodes. -/
theorem no_node_both_source_and_destination (conf : Config)
    (allNodes : List (String × NodeState)) (out : List MigrationSpec)
    (hnd : (allNodes.map Prod.fst).Nodup)
    (h : get_migration_candidates conf allNodes = some out) :
    (∀ p ∈ filteredNodes conf allNodes,
      (p ∈ destCandidates (filteredNodes conf allNodes) ↔
        (p.2.weight : ℚ) < wMean (filteredNodes conf allNodes)) ∧
      (p ∈ sourceCandidates (filteredNodes conf allNodes) ↔
        ((wMean (filteredNodes conf allNodes) : ℚ) : ℝ)
          + Real.sqrt ((wVar (filteredNodes conf allNodes) : ℚ) : ℝ)
          < (p.2.weight : ℝ))) ∧
    (∀ p ∈ sourceCandidates (filteredNodes conf allNodes),
      p ∉ destCandidates (filteredNodes conf allNodes)) ∧
    (∀ spec ∈ out, spec.source ≠ spec.destination) := by
  have hfnd : ((filteredNodes conf allNodes).map Prod.fst).Nodup := filtered_keys_nodup hnd
  have hdisj : ∀ p ∈ sourceCandidates (filteredNodes conf allNodes),
      p ∉ destCandidates (filteredNodes conf allNodes) := by
    intro p hps hpd
    simp only [sourceCandidates, List.mem_filter, gtSqrt, decide_eq_true_eq] at hps
    simp only [destCandidates, List.mem_filter, decide_eq_true_eq] at hpd
    have h1 := hps.2.1
    have h2 := hpd.2
    linarith
  refine ⟨?_, hdisj, ?_⟩
  · intro p hp
    constructor
    · simp only [destCandidates, List.mem_filter, decide_eq_true_eq]
      exact ⟨fun hx => hx.2, fun hx => ⟨hp, hx⟩⟩
    · simp only [sourceCandidates, List.mem_filter]
      rw [gtSqrt_iff_sqrt_lt]
      push_cast
      constructor
      · intro hx
        have := hx.2
        linarith
      · intro hx
        exact ⟨hp, by linarith⟩
  · intro spec hspec
    rcases gmc_cases h with rfl | hplan
    · simp at hspec
    · rcases planLoop_emits _ _ _ _ _ hplan spec hspec with hP | hE
      · simp at hP
      · obtain ⟨S', D', sstate, w, dstate, hS', hD', hsel, -, -, -, -, hdm, -, -⟩ := hE
        intro heq
        have hsmem : (spec.source, sstate) ∈
            sourceCandidates (filteredNodes conf allNodes) :=
          hS'.subset (pickMaxBy_mem hsel)
        have hdmem : (spec.destination, dstate) ∈
            destCandidates (filteredNodes conf allNodes) :=
          hD'.subset hdm
        rw [← heq] at hdmem
        have hsrc_fns : (spec.source, sstate) ∈ filteredNodes conf allNodes := by
          have hsub : (sourceCandidates (filteredNodes conf allNodes)).Sublist
              (filteredNodes conf allNodes) := by
            simp only [sourceCandidates]
            exact List.filter_sublist _
          exact hsub.subset hsmem
        have hdst_fns : (spec.source, dstate) ∈ filteredNodes conf allNodes := by
          have hsub : (destCandidates (filteredNodes conf allNodes)).Sublist
              (filteredNodes conf allNodes) := by
            simp only [destCandidates]
            exact List.filter_sublist _
          exact hsub.subset hdmem
        have hstates : sstate = dstate := nodup_keys_unique hfnd hsrc_fns hdst_fns
        rw [← hstates] at hdmem
        exact hdisj _ hsmem hdmem

/-! ### Concrete inputs for the witnesses -/

/-- Witness configuration: the source's defaults
(`tolerance = 0.2`, `percent_cpu = 0.4`, `percent_mem = 0.6`,
`max_migrations = 5`, no exclusions). -/
def conf1 : Config := ⟨[], 1/5, 2/5, 3/5, 5⟩

/-- The overloaded node of the spec's end-to-end scenario (weight 150),
carrying one workload. -/
def w1 : Workload := ⟨"w1", "qemu", 10, 100, 50⟩

def nodeA : NodeState := ⟨150, 1000, 1000, [("101", w1)]⟩

def nodeB : NodeState := ⟨80, 500, 500, []⟩

def nodeC : NodeState := ⟨40, 2000, 2000, []⟩

/-- The spec's end-to-end scenario: weights `A=150, B=80, C=40`. -/
def snap1 : List (String × NodeState) := [("A", nodeA), ("B", nodeB), ("C", nodeC)]

/-- The proposal the planner emits on `snap1`. -/
def spec1 : MigrationSpec := ⟨"A", "C", "w1", "101", "qemu"⟩

/-- Evaluation of the planner on the end-to-end scenario: `A` is the sole
source, `B` and `C` the destinations, and the scan in ascending weight
order accepts `C`. -/
lemma gmc_snap1 : get_migration_candidates conf1 snap1 = some [spec1] := by
  norm_num [get_migration_candidates, filteredNodes, conf1, snap1, nodeA, nodeB, nodeC, w1,
    spec1, nodeWeights, wMean, wVar, gtSqrt, destCandidates, sourceCandidates, planLoop,
    selectSource, selectWorkload, pickMaxBy, removeKey, sortAsc, findDest, destQualifies,
    List.insertionSort, List.orderedInsert, List.find?, List.filter, List.contains]

/-- A nearly balanced two-node cluster (weights 100 and 105). -/
def nodeX : NodeState := ⟨100, 0, 0, []⟩

def nodeY : NodeState := ⟨105, 0, 0, []⟩

def snapBal : List (String × NodeState) := [("X", nodeX), ("Y", nodeY)]

/-- A one-node snapshot (sample standard deviation undefined). -/
def snapOne : List (String × NodeState) := [("X", nodeX)]

/-- C1 witness: on the two-node cluster with weights 100 and 105 and the
default 20 % tolerance, the disparity allowance 20.5 exceeds the standard
deviation √12.5, and the pass returns the empty proposal list. -/
theorem balanced_cluster_no_proposals_witness :
    2 ≤ (filteredNodes conf1 snapBal).length ∧
    get_migration_candidates conf1 snapBal = some [] := by
  have hfns : filteredNodes conf1 snapBal = snapBal := by decide
  have hsqrt : Real.sqrt ((wVar (filteredNodes conf1 snapBal) : ℚ) : ℝ)
      < ((conf1.tolerance * wMean (filteredNodes conf1 snapBal) : ℚ) : ℝ) := by
    have hvar : wVar snapBal = 25/2 := by
      norm_num [wVar, wMean, nodeWeights, snapBal, nodeX, nodeY]
    have hmean : wMean snapBal = 205/2 := by
      norm_num [wMean, nodeWeights, snapBal, nodeX, nodeY]
    have ht : conf1.tolerance = 1/5 := rfl
    rw [hfns, hvar, hmean, ht]
    push_cast
    rw [Real.sqrt_lt' (by norm_num)]
    norm_num
  exact ⟨by decide, balanced_cluster_no_proposals conf1 snapBal (by decide) hsqrt⟩

/-- C2 witness: the end-to-end scenario emits `spec1 = A → C`, and the
theorem applies to it with all hypotheses discharged concretely. -/
theorem destination_capacity_and_scan_order_witness :
    (snap1.map Prod.fst).Nodup ∧
    EmittedFrom (sourceCandidates (filteredNodes conf1 snap1))
      (destCandidates (filteredNodes conf1 snap1)) spec1 :=
  ⟨by decide,
    (destination_capacity_and_scan_order conf1 snap1 [spec1] (by decide) gmc_snap1).1
      spec1 (by simp)⟩

/-- C5 witness: on the end-to-end scenario the emitted spec's source `A`
differs from its destination `C`. -/
theorem no_node_both_source_and_destination_witness :
    (snap1.map Prod.fst).Nodup ∧ spec1.source ≠ spec1.destination :=
  ⟨by decide,
    (no_node_both_source_and_destination conf1 snap1 [spec1] (by decide) gmc_snap1).2.2
      spec1 (by simp)⟩

/-- C6 witness: the single proposal of the end-to-end scenario respects the
`max_migrations + 1` bound. -/
theorem proposals_bounded_by_max_plus_one_witness :
    get_migration_candidates conf1 snap1 = some [spec1] ∧
    ([spec1] : List MigrationSpec).length ≤ conf1.max_migrations + 1 :=
  ⟨gmc_snap1, proposals_bounded_by_max_plus_one conf1 snap1 [spec1] gmc_snap1⟩

/-- C7 witness: the end-to-end scenario's emitted sources are pairwise
distinct (the theorem applied at a concrete successful run). -/
theorem source_and_workload_selection_witness :
    (snap1.map Prod.fst).Nodup ∧
    (([spec1] : List MigrationSpec).map (fun s => s.source)).Nodup :=
  ⟨by decide,
    (source_and_workload_selection conf1 snap1 [spec1] (by decide) gmc_snap1).2.2.2⟩

/-- A control plane that always reports the resource as locked. -/
def subLocked : String → String → String → String → ℕ → SubmitResult :=
  fun _ _ _ _ _ => SubmitResult.resourceException "locked"

/-- A control plane that always accepts. -/
def subOkA : String → String → String → String → ℕ → SubmitResult :=
  fun _ _ _ _ _ => SubmitResult.ok "UPID:a"

/-- A control plane that accepts cold migrations and drops the connection
on live ones: it agrees with `subOkA` on every `online=0` call. -/
def subOkB : String → String → String → String → ℕ → SubmitResult :=
  fun _ _ _ _ n => if n = 0 then SubmitResult.ok "UPID:a" else SubmitResult.connectionError "x"

def specL : MigrationSpec := ⟨"n1", "n2", "w", "100", "lxc"⟩

/-- C8 witness: an `lxc` spec's outcome only depends on the `online=0`
submission; a locked resource yields the `(false, none)` failure value;
and the executor loop continues past the failed spec. -/
theorem migration_dispatch_and_error_policy_witness :
    do_migration subOkA specL = do_migration subOkB specL ∧
    do_migration subLocked specL = Except.ok (false, none) ∧
    run_migrations subLocked [specL] =
      Except.map (fun more => none :: more) (run_migrations subLocked []) := by
  have h2 : do_migration subLocked specL = Except.ok (false, none) :=
    migration_dispatch_and_error_policy.2.2.1 subLocked specL "locked" rfl (Or.inl rfl)
  exact ⟨migration_dispatch_and_error_policy.1 subOkA subOkB specL rfl rfl, h2,
    migration_dispatch_and_error_policy.2.2.2.2 subLocked specL [] false none h2⟩

/-- A fully loaded workload (load fraction 1 of one core). -/
def wl1 : WorkloadRaw := ⟨"w", "qemu", 1, 1, 1000, 500⟩

/-- A node whose load average exactly saturates its capacity
(`cpu_free = 0`). -/
def nsZero : NodeStatus := ⟨1000, 3, 3, 3, 3, 16, 4, 8, 4⟩

/-- A node whose load average exceeds its capacity (`cpu_free < 0`). -/
def nsNeg : NodeStatus := ⟨1000, 2, 3, 3, 3, 16, 4, 8, 4⟩

/-- C9 witness: a concrete workload's returned cpu-used is at least 0.001;
a saturated node makes `get_node_state` raise; an oversaturated node flips
the sign of the cpu weight term while its positive memory term stays
positive. -/
theorem weight_division_guards_witness :
    (1/1000 : ℚ) ≤ (((70:ℤ), (500:ℚ), (1000:ℚ)) : ℤ × ℚ × ℚ).2.2 ∧
    get_node_state conf1 nsZero = none ∧
    node_w_cpu conf1 nsNeg < 0 ∧
    0 < node_w_mem conf1 nsNeg := by
  have hws : get_workload_state conf1 1000 wl1 = some (70, 500, 1000) := by
    norm_num [get_workload_state, conf1, wl1, pythonRound]
  refine ⟨weight_division_guards.1 conf1 1000 wl1 _ hws, ?_, ?_, ?_⟩
  · exact (weight_division_guards.2.1 conf1 nsZero).mpr
      (Or.inl (by norm_num [node_cpu_free, nsZero]))
  · exact (weight_division_guards.2.2.1 conf1 nsNeg (by norm_num [conf1])
      (by norm_num [nsNeg])).1 (by norm_num [node_cpu_free, nsNeg])
  · exact (weight_division_guards.2.2.2 conf1 nsNeg (by norm_num [conf1])
      (by norm_num [nsNeg])).2 (by norm_num [memFreeNoKsm, nsNeg])

/-- C10 witness: a one-node snapshot makes the pass raise. -/
theorem fewer_than_two_nodes_error_witness :
    (filteredNodes conf1 snapOne).length ≤ 1 ∧
    get_migration_candidates conf1 snapOne = none :=
  ⟨by decide, fewer_than_two_nodes_error conf1 snapOne (by decide)⟩

end PveCslb
